import Mathlib

/-- Python `s.startswith(pre)`: `pre` is a prefix of `s`. -/
def pyStartsWith (s : String) (pre : String) : Bool :=
  pre.data.isPrefixOf s.data

/-- Splitting a character list at every occurrence of the separator
character, Python `str.split(sep)` semantics for a one-character
separator: an empty input yields one empty group, and every separator
occurrence starts a new group. -/
def splitChar (c : Char) : List Char → List (List Char)
  | [] => [[]]
  | a :: rest =>
    let r := splitChar c rest
    if a == c then [] :: r else (a :: r.headD []) :: r.tail

/-- Python `s.split(c)` for a one-character separator `c`. -/
def pySplit (s : String) (c : Char) : List String :=
  (splitChar c s.data).map String.mk

/-- Python `s.replace(newline, empty)`: removes every newline character. -/
def removeNL (s : String) : String :=
  String.mk (s.data.filter (fun a => !(a == '\n')))

/-- Python string joining of a list of strings with a separator. -/
def pyJoin (sep : String) : List String → String
  | [] => ""
  | x :: rest => rest.foldl (fun acc y => acc ++ sep ++ y) x

/-- Lexicographic comparison of character lists by code point, the order
Python uses to compare strings. -/
def charLe : List Char → List Char → Bool
  | [], _ => true
  | _ :: _, [] => false
  | a :: as, b :: bs => if a < b then true else if b < a then false else charLe as bs

/-- Python string comparison `a <= b`: lexicographic by code point. -/
def pyLe (a b : String) : Bool :=
  charLe a.data b.data

/-- Insert an element into a list, before the first element it compares
at most equal to. -/
def insertSorted (x : String) : List String → List String
  | [] => [x]
  | y :: ys => if pyLe x y then x :: y :: ys else y :: insertSorted x ys

/-- Sorting by repeated insertion; produces the sorted permutation that
Python `list.sort()` produces on strings. -/
def sortStr (l : List String) : List String :=
  l.foldr insertSorted []

/-- Embedding of `set_trio` from `sum_matrices.py`: keep the directory
names that start with the fixed text, then sort them, as Python
`list.sort()` does, lexicographically. -/
def set_trio (listing : List String) : List String :=
  sortStr (listing.filter (fun dir => pyStartsWith dir "trio"))

/-- State of the loop inside `write_metadata`: the running individual id,
the accumulated protocol text, the latest row (Python variable `entry`,
initially `None`), and the lines written to the file so far. -/
structure WMState where
  indiv : String
  protocols : String
  entry : Option String
  written : List String

/-- Initial state of `write_metadata`: empty accumulators, `entry = None`,
and the header line already written. -/
def wmInit : WMState :=
  { indiv := "", protocols := "", entry := none,
    written := ["indiv \t protocols \n"] }

/-- One iteration of the loop in `write_metadata`. Splitting the name may
raise `IndexError` when there are fewer than three dot fields, modelled by
`none`. Exactly one of the two `if` branches of the source runs, since the
first branch never changes `indiv`. -/
def wmStep (st : WMState) (dir : String) : Option WMState :=
  let tmp := pySplit dir '.'
  match tmp[0]?, tmp[1]?, tmp[2]? with
  | some t0, some t1, some t2 =>
    let ind := t0 ++ "." ++ t1
    let prot := t2
    if st.indiv = ind then
      let prots1 := st.protocols ++ prot ++ ","
      some { st with protocols := prots1,
                     entry := some (st.indiv ++ "\t" ++ prots1) }
    else
      match st.entry with
      | some e =>
        let line := String.mk e.data.dropLast ++ "\n"
        some { indiv := ind, protocols := prot ++ ",",
               entry := some line, written := st.written ++ [line] }
      | none =>
        some { indiv := ind, protocols := prot ++ ",",
               entry := none, written := st.written }
  | _, _, _ => none

/-- Embedding of `write_metadata` from `sum_matrices.py`, returning the
full list of lines written to `metadata.tsv`, or `none` when the Python
code raises an uncaught error: the final flush evaluates `entry[:-1]`,
a `TypeError` when `entry` is still `None`. -/
def write_metadata (trio : List String) : Option (List String) := do
  let st ← trio.foldlM wmStep wmInit
  match st.entry with
  | some e => some (st.written ++ [String.mk e.data.dropLast ++ "\n"])
  | none => none

/-- Individual id derived from a trio directory name: the first two dot
fields joined by a dot, as `write_metadata` computes it. -/
def indivOf (dir : String) : String :=
  (pySplit dir '.').getD 0 "" ++ "." ++ (pySplit dir '.').getD 1 ""

/-- One iteration of `make_subdir`: derive the second dot field, and
create the directory when it does not exist. Indexing the split result
may raise `IndexError`, modelled by `none`. -/
def msStep (hic_dir : String) (dirs : List String)
    (indiv : String) : Option (List String) :=
  match (pySplit indiv '.')[1]? with
  | some sp =>
    let path := hic_dir ++ sp
    if path ∈ dirs then some dirs else some (dirs ++ [path])
  | none => none

/-- Embedding of `make_subdir` from `sum_matrices.py`. The filesystem is
the list of directories that exist; `mkdir -p` adds the missing one. -/
def make_subdir (hic_dir : String) (existing : List String)
    (trio : List String) : Option (List String) :=
  trio.foldlM (msStep hic_dir) existing

/-- Filesystem model for the collector: each pair is a directory path and
its listing. A path that is absent raises `OSError` on `os.listdir`. -/
abbrev FS := List (String × List String)

/-- Result of `os.listdir` on the modelled filesystem. -/
def lookupDir (fs : FS) (path : String) : Option (List String) :=
  (fs.find? (fun e => e.1 = path)).map (fun e => e.2)

/-- Constant `h5_path` from `sum_matrices.py`. -/
def h5_path : String := "hic_results/matrix/h5df/"

/-- The four fixed resolution keys of `RES_DIC`, in insertion order. -/
def RESOLUTIONS : List Nat := [1000000, 500000, 200000, 50000]

/-- One inner mapping of `RES_DIC`: protocol name to list of matrix
paths, as an association list in insertion order. -/
abbrev ProtMap := List (String × List String)

/-- The `RES_DIC` mapping: resolution to protocol mapping, as an
association list in insertion order. -/
abbrev ResDic := List (Nat × ProtMap)

/-- `RES_DIC` as initialised on line 64 of the source: the four
resolutions, each with an empty protocol mapping. -/
def initResDic : ResDic := RESOLUTIONS.map (fun k => (k, []))

/-- Python dict assignment `pm[p] = v`: replace the value when the key is
present, otherwise append the key at the end. -/
def dictAssign (pm : ProtMap) (p : String) (v : List String) : ProtMap :=
  if pm.any (fun kv => kv.1 = p) then
    pm.map (fun kv => if kv.1 = p then (kv.1, v) else kv)
  else pm ++ [(p, v)]

/-- The assignment `RES_DIC[k][p] = v` of the source. The resolution keys
of `RES_DIC` are fixed, so only an existing entry is updated. -/
def resAssign (d : ResDic) (k : Nat) (p : String) (v : List String) : ResDic :=
  d.map (fun km => if km.1 = k then (km.1, dictAssign km.2 p v) else km)

/-- Python equality between a string and a list is always `False`; the
source tests `pt not in RES_DIC[k].values()`, comparing the protocol
string against the stored path lists, so the test never finds a match. -/
def pyStrEqList (_s : String) (_v : List String) : Bool := false

/-- One step of the reset loop on lines 71 to 73 of the source: for one
resolution key, when the protocol string equals no stored value, which is
always, set its entry to the empty list. -/
def resetStep (pt ptc : String) (dd : ResDic) (k : Nat) : ResDic :=
  match dd.lookup k with
  | some pm =>
    if (pm.map (fun kv => kv.2)).any (fun v => pyStrEqList pt v) then dd
    else resAssign dd k ptc []
  | none => dd

/-- The reset loop of the source: every resolution gets an empty list for
the protocol key before the directory scan. -/
def resetProt (d : ResDic) (pt ptc : String) : ResDic :=
  RESOLUTIONS.foldl (resetStep pt ptc) d

/-- Matching of the regular expression pattern against the text starting
at the current offset; the dot of the pattern matches any character other
than a newline, as in Python `re`. -/
def reMatchAt (p : List Char) (s : List Char) : Bool :=
  match p, s with
  | [], _ => true
  | _ :: _, [] => false
  | pc :: p1, c :: s1 =>
    (pc == c || (pc == '.' && !(c == '\n'))) && reMatchAt p1 s1

/-- Python `re.search`: the pattern matches at some offset of the text. -/
def reSearch (p : List Char) (s : List Char) : Bool :=
  match s with
  | [] => reMatchAt p []
  | _ :: s1 => reMatchAt p s || reSearch p s1

/-- The test on line 79 of the source: search for the resolution value
followed by `.matrix.h5` anywhere in the file name, the dots being
regular-expression wildcards. -/
def matSearch (k : Nat) (mat : String) : Bool :=
  reSearch (toString k ++ ".matrix.h5").toList mat.toList

/-- The scan loop body for one resolution `k`, lines 77 to 81 of the
source: grow `mat_path` with every matching file of the listed directory
and assign it to `RES_DIC[k][ptc]` at each match. -/
def scanRes (base : String) (ptc : String) (files : List String)
    (d : ResDic) (k : Nat) : ResDic :=
  (files.foldl (fun acc mat =>
    if matSearch k mat then
      let mp := acc.1 ++ [base ++ mat]
      (mp, resAssign acc.2 k ptc mp)
    else acc) (([] : List String), d)).2

/-- Processing of one protocol token `pt` of one metadata line, lines 70
to 83 of the source: reset the protocol entry of every resolution, then
scan the results directory, a missing directory raising `OSError` which
is caught and skips the scan. -/
def processPt (wdir : String) (fs : FS) (ind : String)
    (d : ResDic) (pt : String) : ResDic :=
  let ptc := removeNL pt
  let d1 := resetProt d pt ptc
  let base := wdir ++ ind ++ "." ++ ptc ++ "/" ++ h5_path
  match lookupDir fs base with
  | none => d1
  | some files => RESOLUTIONS.foldl (scanRes base ptc files) d1

/-- Processing of one metadata line, lines 66 to 83 of the source: lines
that do not start with `trio` are skipped; a line with no tab raises an
uncaught `IndexError`, modelled by `none`. -/
def processLine (wdir : String) (fs : FS) (d : ResDic)
    (line : String) : Option ResDic :=
  if pyStartsWith line "trio" then
    match pySplit line '\t' with
    | ind :: protsStr :: _ =>
      some ((pySplit protsStr ',').foldl (processPt wdir fs ind) d)
    | _ => none
  else some d

/-- Embedding of `create_matrice_directory` from `sum_matrices.py`: fold
the line processing over the metadata lines, starting from the mapping
with the four fixed resolutions. -/
def create_matrice_directory (wdir : String) (fs : FS)
    (lines : List String) : Option ResDic :=
  lines.foldlM (processLine wdir fs) initResDic

/-- The command built on line 122 of the source for one resolution and
protocol pair: the collected paths joined by spaces. -/
def mkSumCmd (hic_dir : String) (prot : String) (res : Nat)
    (mats : List String) : String :=
  "hicSumMatrices --matrices " ++ pyJoin " " mats ++ " --outFileName " ++
    hic_dir ++ prot ++ "_" ++ toString res ++ ".h5"

/-- The aggregation loop of the source, lines 119 to 124: one external
command per resolution and protocol key pair of the mapping, in mapping
order, with no condition on the path list. -/
def sumCommands (hic_dir : String) (d : ResDic) : List String :=
  (d.map (fun km => km.2.map (fun pv => mkSumCmd hic_dir pv.1 km.1 pv.2))).flatten

/-- Lookup of `RES_DIC[k][p]` in the mapping. -/
def lookupRes (d : ResDic) (k : Nat) (p : String) : Option (List String) :=
  match d.lookup k with
  | some pm => pm.lookup p
  | none => none

/-- The resolution keys of the mapping, in order. -/
def resKeys (d : ResDic) : List Nat :=
  d.map (fun km => km.1)

/-- All protocol keys present in the mapping, over all resolutions. -/
def protKeys (d : ResDic) : List String :=
  (d.map (fun km => km.2.map (fun pv => pv.1))).flatten

/-- The cleaned protocol tokens that the collector derives from one
metadata line; empty for a skipped or malformed line. -/
def lineProts (line : String) : List String :=
  if pyStartsWith line "trio" then
    match pySplit line '\t' with
    | _ :: protsStr :: _ => (pySplit protsStr ',').map removeNL
    | _ => []
  else []

/-- All cleaned protocol tokens of a metadata file. -/
def allLineProts (lines : List String) : List String :=
  (lines.map lineProts).flatten

/-- Net effect of one directory scan for one individual, protocol and
resolution: all matching files of the listed directory, with the
directory path prefixed; empty when the directory is absent. -/
def scanMatches (wdir : String) (fs : FS) (ind : String)
    (pt : String) (k : Nat) : List String :=
  let ptc := removeNL pt
  let base := wdir ++ ind ++ "." ++ ptc ++ "/" ++ h5_path
  match lookupDir fs base with
  | none => []
  | some files => (files.filter (fun m => matSearch k m)).map (fun m => base ++ m)

lemma charLe_total : ∀ a b : List Char, charLe a b = true ∨ charLe b a = true := by
  intro a
  induction a with
  | nil => intro b; left; rfl
  | cons x xs ih =>
    intro b
    cases b with
    | nil => right; rfl
    | cons y ys =>
      rcases lt_trichotomy x y with h | h | h
      · left; simp [charLe, h]
      · subst h
        rcases ih ys with h2 | h2
        · left; simp [charLe, lt_irrefl, h2]
        · right; simp [charLe, lt_irrefl, h2]
      · right; simp [charLe, h]

lemma charLe_trans : ∀ a b c : List Char,
    charLe a b = true → charLe b c = true → charLe a c = true := by
  intro a
  induction a with
  | nil => intro b c _ _; rfl
  | cons x xs ih =>
    intro b c hab hbc
    cases b with
    | nil => simp [charLe] at hab
    | cons y ys =>
      cases c with
      | nil => simp [charLe] at hbc
      | cons z zs =>
        rcases lt_trichotomy x y with h1 | h1 | h1
        · rcases lt_trichotomy y z with h2 | h2 | h2
          · simp [charLe, h1.trans h2]
          · subst h2; simp [charLe, h1]
          · simp [charLe, h2, asymm h2] at hbc
        · subst h1
          rcases lt_trichotomy x z with h2 | h2 | h2
          · simp [charLe, h2]
          · subst h2
            simp only [charLe, lt_irrefl, if_false, if_neg] at hab hbc ⊢
            exact ih _ _ hab hbc
          · simp [charLe, h2, asymm h2] at hbc
        · simp [charLe, h1, asymm h1] at hab

lemma pyLe_total (a b : String) : pyLe a b = true ∨ pyLe b a = true :=
  charLe_total a.data b.data

lemma pyLe_trans {a b c : String} (h1 : pyLe a b = true) (h2 : pyLe b c = true) :
    pyLe a c = true :=
  charLe_trans a.data b.data c.data h1 h2

lemma insertSorted_perm (x : String) :
    ∀ l : List String, (insertSorted x l).Perm (x :: l) := by
  intro l
  induction l with
  | nil => simp [insertSorted]
  | cons y ys ih =>
    by_cases h : pyLe x y = true
    · simp [insertSorted, h]
    · simp only [insertSorted, h, if_false, if_neg]
      exact (ih.cons y).trans (List.Perm.swap x y ys)

lemma sortStr_perm : ∀ l : List String, (sortStr l).Perm l := by
  intro l
  induction l with
  | nil => simp [sortStr]
  | cons x xs ih =>
    have : sortStr (x :: xs) = insertSorted x (sortStr xs) := rfl
    rw [this]
    exact (insertSorted_perm x (sortStr xs)).trans (ih.cons x)

lemma insertSorted_sorted (x : String) :
    ∀ l : List String, l.Sorted (fun a b => pyLe a b = true) →
      (insertSorted x l).Sorted (fun a b => pyLe a b = true) := by
  intro l
  induction l with
  | nil => intro _; simp [insertSorted]
  | cons y ys ih =>
    intro hs
    rw [List.sorted_cons] at hs
    by_cases h : pyLe x y = true
    · simp only [insertSorted, h, if_pos]
      rw [List.sorted_cons]
      constructor
      · intro z hz
        rcases List.mem_cons.mp hz with rfl | hz2
        · exact h
        · exact pyLe_trans h (hs.1 z hz2)
      · rw [List.sorted_cons]; exact hs
    · have hrw : insertSorted x (y :: ys) = y :: insertSorted x ys := by
        simp [insertSorted, h]
      rw [hrw, List.sorted_cons]
      constructor
      · intro z hz
        have hz2 := (insertSorted_perm x ys).mem_iff.mp hz
        rcases List.mem_cons.mp hz2 with rfl | hz3
        · rcases pyLe_total z y with h2 | h2
          · exact absurd h2 h
          · exact h2
        · exact hs.1 z hz3
      · exact ih hs.2

lemma sortStr_sorted : ∀ l : List String,
    (sortStr l).Sorted (fun a b => pyLe a b = true) := by
  intro l
  induction l with
  | nil => simp [sortStr]
  | cons x xs ih => exact insertSorted_sorted x (sortStr xs) ih

/-- C7: for every directory listing, `set_trio` returns exactly the
immediate child names that start with the text `trio`, sorted
lexicographically by code point, and no others. -/
theorem set_trio_spec (listing : List String) :
    (set_trio listing).Sorted (fun a b => pyLe a b = true) ∧
    (set_trio listing).Perm (listing.filter (fun d => pyStartsWith d "trio")) ∧
    ∀ x, x ∈ set_trio listing ↔ (x ∈ listing ∧ pyStartsWith x "trio" = true) := by
  refine ⟨sortStr_sorted _, sortStr_perm _, ?_⟩
  intro x
  unfold set_trio
  rw [(sortStr_perm _).mem_iff, List.mem_filter]

lemma make_subdir_cons (hd : String) (e : List String) (i : String) (t : List String) :
    make_subdir hd e (i :: t) = (msStep hd e i).bind (fun e1 => make_subdir hd e1 t) := rfl

lemma make_subdir_mono :
    ∀ (trio : List String) (hd : String) (e r : List String),
      make_subdir hd e trio = some r → e ⊆ r := by
  intro trio
  induction trio with
  | nil =>
    intro hd e r h
    have : e = r := by simpa [make_subdir] using h
    subst this
    exact fun x hx => hx
  | cons i t ih =>
    intro hd e r h
    rw [make_subdir_cons] at h
    cases hsp : (pySplit i '.')[1]? with
    | none => simp [msStep, hsp] at h
    | some sp =>
      by_cases hmem : hd ++ sp ∈ e
      · rw [show msStep hd e i = some e from by simp [msStep, hsp, hmem]] at h
        exact ih hd e r h
      · rw [show msStep hd e i = some (e ++ [hd ++ sp]) from by simp [msStep, hsp, hmem]] at h
        exact fun x hx => ih hd _ r h (List.mem_append_left _ hx)

/-- C8: `make_subdir` is idempotent: a run that succeeds from some
directory set reaches a set from which a second run changes nothing and
raises no error. -/
theorem make_subdir_idempotent :
    ∀ (trio : List String) (hd : String) (e r : List String),
      make_subdir hd e trio = some r → make_subdir hd r trio = some r := by
  intro trio
  induction trio with
  | nil =>
    intro hd e r h
    have : e = r := by simpa [make_subdir] using h
    subst this
    exact h
  | cons i t ih =>
    intro hd e r h
    rw [make_subdir_cons] at h
    cases hsp : (pySplit i '.')[1]? with
    | none => simp [msStep, hsp] at h
    | some sp =>
      have hstep : ∃ e1, msStep hd e i = some e1 ∧ make_subdir hd e1 t = some r ∧
          hd ++ sp ∈ e1 := by
        by_cases hmem : hd ++ sp ∈ e
        · refine ⟨e, by simp [msStep, hsp, hmem], ?_, hmem⟩
          rw [show msStep hd e i = some e from by simp [msStep, hsp, hmem]] at h
          simpa using h
        · refine ⟨e ++ [hd ++ sp], by simp [msStep, hsp, hmem], ?_, by simp⟩
          rw [show msStep hd e i = some (e ++ [hd ++ sp]) from by
            simp [msStep, hsp, hmem]] at h
          simpa using h
      obtain ⟨e1, _, hrest, hpath⟩ := hstep
      have hr : hd ++ sp ∈ r := make_subdir_mono t hd e1 r hrest hpath
      rw [make_subdir_cons, show msStep hd r i = some r from by simp [msStep, hsp, hr]]
      exact ih hd e1 r hrest

/-- Witness for C8 at a concrete input. -/
theorem make_subdir_idempotent_witness :
    make_subdir "h/" [] ["trio.A.001.HiC", "trio.B.002.HiC"] = some ["h/A", "h/B"] ∧
    make_subdir "h/" ["h/A", "h/B"] ["trio.A.001.HiC", "trio.B.002.HiC"] =
      some ["h/A", "h/B"] :=
  ⟨rfl, make_subdir_idempotent ["trio.A.001.HiC", "trio.B.002.HiC"] "h/" [] ["h/A", "h/B"] rfl⟩

/-- C5: on the empty sequence the loop of `write_metadata` ends with the
row variable still uninitialised, and the final unconditional flush
raises an uncaught error instead of writing a data row. -/
theorem write_metadata_empty_fails :
    List.foldlM wmStep wmInit ([] : List String) = some wmInit ∧
    wmInit.entry = none ∧
    write_metadata [] = none :=
  ⟨rfl, rfl, rfl⟩

/-- C1: evaluation of `write_metadata` at the example of the
specification. The sorted input holds the individuals `trio.A` with
protocols `001, 001` and `trio.B` with protocol `002` under the split
convention of the code; the output repeats the `trio.A` row twice and
holds no row at all for the last individual, so the promised rows never
appear. -/
theorem write_metadata_example_bug :
    write_metadata ["trio.A.001.Capture", "trio.A.001.HiC", "trio.B.002.HiC"] =
      some ["indiv \t protocols \n", "trio.A\t001,001\n", "trio.A\t001,001\n"] ∧
    "A.001\tHiC,Capture\n" ∉ ["indiv \t protocols \n", "trio.A\t001,001\n", "trio.A\t001,001\n"] ∧
    "B.002\tHiC\n" ∉ ["indiv \t protocols \n", "trio.A\t001,001\n", "trio.A\t001,001\n"] ∧
    ∀ row ∈ ["indiv \t protocols \n", "trio.A\t001,001\n", "trio.A\t001,001\n"],
      pyStartsWith row "trio.B" = false :=
  ⟨rfl, by decide, by decide, by decide⟩

lemma empty_ne_append_dot (a b : String) : ("" : String) ≠ a ++ "." ++ b := by
  intro h
  have hlen := congrArg String.length h
  rw [String.length_append, String.length_append] at hlen
  have hdot : String.length "." = 1 := rfl
  simp [hdot] at hlen
  omega

lemma wm_entry_none_aux :
    ∀ (trio : List String) (st : WMState),
      (∀ d ∈ trio, 3 ≤ (pySplit d '.').length) →
      List.Chain' (fun a b => indivOf a ≠ indivOf b) trio →
      (∀ t, trio.head? = some t → st.indiv ≠ indivOf t) →
      st.entry = none →
      ∃ st1, List.foldlM wmStep st trio = some st1 ∧ st1.entry = none := by
  intro trio
  induction trio with
  | nil => intro st _ _ _ he; exact ⟨st, rfl, he⟩
  | cons t rest ih =>
    intro st hwf hch hhead he
    have h3 : 3 ≤ (pySplit t '.').length := hwf t (List.mem_cons_self t rest)
    obtain ⟨t0, t1, t2, ts, hs⟩ :
        ∃ t0 t1 t2 ts, pySplit t '.' = t0 :: t1 :: t2 :: ts := by
      rcases hl : pySplit t '.' with _ | ⟨a, _ | ⟨b, _ | ⟨c, ts⟩⟩⟩
      · rw [hl] at h3; simp at h3
      · rw [hl] at h3; simp at h3
      · rw [hl] at h3; simp at h3
      · exact ⟨a, b, c, ts, rfl⟩
    have hio : indivOf t = t0 ++ "." ++ t1 := by
      simp [indivOf, hs]
    have hne1 : ¬ st.indiv = t0 ++ "." ++ t1 := by
      rw [← hio]; exact hhead t rfl
    have hstep : wmStep st t =
        some { indiv := t0 ++ "." ++ t1, protocols := t2 ++ ",",
               entry := none, written := st.written } := by
      simp [wmStep, hs, hne1, he]
    have hrest : ∀ t2, rest.head? = some t2 →
        (t0 ++ "." ++ t1 : String) ≠ indivOf t2 := by
      intro u hu
      cases rest with
      | nil => simp at hu
      | cons v vs =>
        have hv : v = u := by simpa using hu
        subst hv
        rw [← hio]
        exact (List.chain'_cons.mp hch).1
    obtain ⟨st1, hfold, hent⟩ :=
      ih { indiv := t0 ++ "." ++ t1, protocols := t2 ++ ",",
           entry := none, written := st.written }
        (fun d hd => hwf d (List.mem_cons_of_mem t hd))
        hch.tail hrest rfl
    refine ⟨st1, ?_, hent⟩
    rw [List.foldlM_cons, hstep]
    simpa using hfold

/-- C9: for every non-empty trio sequence in which no two consecutive
names derive the same individual id, and whose names all have at least
three dot fields, the loop never initialises the row variable, so the
final flush of `write_metadata` raises an uncaught error. -/
theorem write_metadata_unique_ids_fails (trio : List String)
    (hne : trio ≠ [])
    (hwf : ∀ d ∈ trio, 3 ≤ (pySplit d '.').length)
    (hch : List.Chain' (fun a b => indivOf a ≠ indivOf b) trio) :
    write_metadata trio = none := by
  have hhead : ∀ t, trio.head? = some t → wmInit.indiv ≠ indivOf t := by
    intro t ht
    have h3 : 3 ≤ (pySplit t '.').length := by
      refine hwf t ?_
      cases trio with
      | nil => simp at ht
      | cons a l => simp at ht; subst ht; exact List.mem_cons_self a l
    show ("" : String) ≠ indivOf t
    obtain ⟨t0, t1, t2, ts, hs⟩ :
        ∃ t0 t1 t2 ts, pySplit t '.' = t0 :: t1 :: t2 :: ts := by
      rcases hl : pySplit t '.' with _ | ⟨a, _ | ⟨b, _ | ⟨c, ts⟩⟩⟩
      · rw [hl] at h3; simp at h3
      · rw [hl] at h3; simp at h3
      · rw [hl] at h3; simp at h3
      · exact ⟨a, b, c, ts, rfl⟩
    have hio : indivOf t = t0 ++ "." ++ t1 := by simp [indivOf, hs]
    rw [hio]
    exact empty_ne_append_dot t0 t1
  obtain ⟨st1, hfold, hent⟩ := wm_entry_none_aux trio wmInit hwf hch hhead rfl
  unfold write_metadata
  rw [hfold]
  simp [hent]

/-- Witness for C9 at a concrete two-element input. -/
theorem write_metadata_unique_ids_fails_witness :
    (["trio.A.001.HiC", "trio.B.002.HiC"] : List String) ≠ [] ∧
    (∀ d ∈ (["trio.A.001.HiC", "trio.B.002.HiC"] : List String),
      3 ≤ (pySplit d '.').length) ∧
    List.Chain' (fun a b => indivOf a ≠ indivOf b)
      ["trio.A.001.HiC", "trio.B.002.HiC"] ∧
    write_metadata ["trio.A.001.HiC", "trio.B.002.HiC"] = none :=
  ⟨by decide, by decide, List.chain'_pair.mpr (by decide),
    write_metadata_unique_ids_fails _ (by decide) (by decide)
      (List.chain'_pair.mpr (by decide))⟩

lemma lookup_cons_self {α β : Type} [BEq α] [LawfulBEq α]
    (k : α) (w : β) (rest : List (α × β)) :
    List.lookup k ((k, w) :: rest) = some w := by
  simp [List.lookup]

lemma lookup_cons_ne {α β : Type} [BEq α] [LawfulBEq α]
    {q k : α} (h : ¬ q = k) (w : β) (rest : List (α × β)) :
    List.lookup q ((k, w) :: rest) = List.lookup q rest := by
  simp [List.lookup, beq_eq_false_iff_ne.mpr h]

lemma lookup_map_assign (pm : ProtMap) (p : String) (v : List String) (q : String) :
    (pm.map (fun kv => if kv.1 = p then (kv.1, v) else kv)).lookup q =
      (pm.lookup q).map (fun w => if q = p then v else w) := by
  induction pm with
  | nil => rfl
  | cons kv rest ih =>
    obtain ⟨a, w⟩ := kv
    by_cases h1 : a = p
    · rw [List.map_cons]
      have hhead : (if ((a, w) : String × List String).1 = p
          then (((a, w) : String × List String).1, v) else (a, w)) = (a, v) := by
        simp [h1]
      rw [hhead]
      by_cases h2 : q = a
      · subst h2
        rw [lookup_cons_self, lookup_cons_self]
        simp [h1]
      · rw [lookup_cons_ne h2, lookup_cons_ne h2, ih]
    · rw [List.map_cons]
      have hhead : (if ((a, w) : String × List String).1 = p
          then (((a, w) : String × List String).1, v) else (a, w)) = (a, w) := by
        simp [h1]
      rw [hhead]
      by_cases h2 : q = a
      · subst h2
        rw [lookup_cons_self, lookup_cons_self]
        have : ¬ q = p := h1
        simp [this]
      · rw [lookup_cons_ne h2, lookup_cons_ne h2, ih]

lemma any_key_lookup (pm : ProtMap) (p : String) :
    pm.any (fun kv => kv.1 = p) = (pm.lookup p).isSome := by
  induction pm with
  | nil => rfl
  | cons kv rest ih =>
    obtain ⟨a, w⟩ := kv
    by_cases h : a = p
    · subst h
      rw [lookup_cons_self]
      simp
    · have h2 : ¬ p = a := fun hx => h hx.symm
      rw [lookup_cons_ne h2]
      simp [h, ih]

lemma lookup_append_of_none {l1 : ProtMap} {q : String}
    (h : l1.lookup q = none) (l2 : ProtMap) :
    (l1 ++ l2).lookup q = l2.lookup q := by
  induction l1 with
  | nil => rfl
  | cons kv rest ih =>
    obtain ⟨a, w⟩ := kv
    by_cases h2 : q = a
    · subst h2
      rw [lookup_cons_self] at h
      exact absurd h (by simp)
    · rw [lookup_cons_ne h2] at h
      rw [List.cons_append, lookup_cons_ne h2]
      exact ih h

lemma lookup_append_of_some {l1 : ProtMap} {q : String} {w0 : List String}
    (h : l1.lookup q = some w0) (l2 : ProtMap) :
    (l1 ++ l2).lookup q = some w0 := by
  induction l1 with
  | nil => simp [List.lookup] at h
  | cons kv rest ih =>
    obtain ⟨a, w⟩ := kv
    by_cases h2 : q = a
    · subst h2
      rw [lookup_cons_self] at h
      rw [List.cons_append, lookup_cons_self]
      exact h
    · rw [lookup_cons_ne h2] at h
      rw [List.cons_append, lookup_cons_ne h2]
      exact ih h

lemma lookup_dictAssign (pm : ProtMap) (p : String) (v : List String) (q : String) :
    (dictAssign pm p v).lookup q = if q = p then some v else pm.lookup q := by
  by_cases hAny : pm.any (fun kv => kv.1 = p) = true
  · unfold dictAssign
    rw [if_pos hAny, lookup_map_assign]
    by_cases hq : q = p
    · subst hq
      rw [any_key_lookup] at hAny
      obtain ⟨w, hw⟩ := Option.isSome_iff_exists.mp hAny
      simp [hw]
    · simp [hq]
  · unfold dictAssign
    rw [if_neg hAny]
    rw [any_key_lookup] at hAny
    have hnone : pm.lookup p = none := by
      cases hx : pm.lookup p
      · rfl
      · rw [hx] at hAny; simp at hAny
    by_cases hq : q = p
    · subst hq
      rw [lookup_append_of_none hnone, if_pos rfl, lookup_cons_self]
    · cases hx : pm.lookup q with
      | none =>
        rw [lookup_append_of_none hx, if_neg hq, lookup_cons_ne hq]
        rfl
      | some w =>
        rw [lookup_append_of_some hx, if_neg hq]

lemma lookup_consN_self (k : Nat) (w : ProtMap) (rest : ResDic) :
    List.lookup k ((k, w) :: rest) = some w := by
  simp [List.lookup]

lemma lookup_consN_ne {q k : Nat} (h : ¬ q = k) (w : ProtMap) (rest : ResDic) :
    List.lookup q ((k, w) :: rest) = List.lookup q rest := by
  simp [List.lookup, beq_eq_false_iff_ne.mpr h]

lemma lookup_resAssign (d : ResDic) (k1 : Nat) (p : String) (v : List String) (k : Nat) :
    (resAssign d k1 p v).lookup k =
      (d.lookup k).map (fun pm => if k = k1 then dictAssign pm p v else pm) := by
  induction d with
  | nil => rfl
  | cons km rest ih =>
    obtain ⟨a, pm⟩ := km
    unfold resAssign at ih ⊢
    rw [List.map_cons]
    by_cases h1 : a = k1
    · have hhead : (if ((a, pm) : Nat × ProtMap).1 = k1
          then (((a, pm) : Nat × ProtMap).1, dictAssign ((a, pm) : Nat × ProtMap).2 p v)
          else (a, pm)) = (a, dictAssign pm p v) := by simp [h1]
      rw [hhead]
      by_cases h2 : k = a
      · subst h2
        rw [lookup_consN_self, lookup_consN_self]
        simp [h1]
      · rw [lookup_consN_ne h2, lookup_consN_ne h2, ih]
    · have hhead : (if ((a, pm) : Nat × ProtMap).1 = k1
          then (((a, pm) : Nat × ProtMap).1, dictAssign ((a, pm) : Nat × ProtMap).2 p v)
          else (a, pm)) = (a, pm) := by simp [h1]
      rw [hhead]
      by_cases h2 : k = a
      · subst h2
        rw [lookup_consN_self, lookup_consN_self]
        have : ¬ k = k1 := h1
        simp [this]
      · rw [lookup_consN_ne h2, lookup_consN_ne h2, ih]

lemma lookupRes_resAssign_ne {k k1 : Nat} (h : ¬ k = k1)
    (d : ResDic) (p : String) (v : List String) (q : String) :
    lookupRes (resAssign d k1 p v) k q = lookupRes d k q := by
  unfold lookupRes
  rw [lookup_resAssign]
  cases hd : d.lookup k <;> simp [h]

lemma lookupRes_resAssign_self {d : ResDic} {k : Nat} {pm : ProtMap}
    (h : d.lookup k = some pm) (p : String) (v : List String) :
    lookupRes (resAssign d k p v) k p = some v := by
  unfold lookupRes
  rw [lookup_resAssign, h]
  simp [lookup_dictAssign]

lemma resKeys_resAssign (d : ResDic) (k : Nat) (p : String) (v : List String) :
    resKeys (resAssign d k p v) = resKeys d := by
  unfold resKeys resAssign
  rw [List.map_map]
  apply List.map_congr_left
  intro km _
  by_cases h : km.1 = k <;> simp [h]

lemma lookup_isSome_of_mem_resKeys {d : ResDic} {k : Nat} (h : k ∈ resKeys d) :
    ∃ pm, d.lookup k = some pm := by
  induction d with
  | nil => simp [resKeys] at h
  | cons km rest ih =>
    obtain ⟨a, pm⟩ := km
    by_cases h2 : k = a
    · subst h2
      exact ⟨pm, lookup_consN_self k pm rest⟩
    · rw [lookup_consN_ne h2]
      apply ih
      simp [resKeys] at h ⊢
      rcases h with h | h
      · exact absurd h h2
      · exact h

lemma any_key_map_assign (pm : ProtMap) (p : String) (v : List String) :
    ((pm.map (fun kv => if kv.1 = p then (kv.1, v) else kv)).any
      (fun kv => kv.1 = p)) = pm.any (fun kv => kv.1 = p) := by
  induction pm with
  | nil => rfl
  | cons kv rest ih =>
    obtain ⟨a, w⟩ := kv
    by_cases h : a = p <;> simp [h, ih]

lemma map_assign_id {pm : ProtMap} {p : String}
    (h : pm.any (fun kv => kv.1 = p) = false) (v : List String) :
    pm.map (fun kv => if kv.1 = p then (kv.1, v) else kv) = pm := by
  induction pm with
  | nil => rfl
  | cons kv rest ih =>
    obtain ⟨a, w⟩ := kv
    simp only [List.any_cons, Bool.or_eq_false_iff] at h
    rw [List.map_cons]
    have ha : ¬ a = p := by
      intro hx
      rw [hx] at h
      simp at h
    have hhead : (if ((a, w) : String × List String).1 = p
        then (((a, w) : String × List String).1, v) else (a, w)) = (a, w) := by
      simp [ha]
    rw [hhead, ih h.2]

lemma dictAssign_dictAssign (pm : ProtMap) (p : String) (v w : List String) :
    dictAssign (dictAssign pm p v) p w = dictAssign pm p w := by
  by_cases hAny : pm.any (fun kv => kv.1 = p) = true
  · have h1 : dictAssign pm p v =
        pm.map (fun kv => if kv.1 = p then (kv.1, v) else kv) := by
      unfold dictAssign; rw [if_pos hAny]
    have h2 : dictAssign pm p w =
        pm.map (fun kv => if kv.1 = p then (kv.1, w) else kv) := by
      unfold dictAssign; rw [if_pos hAny]
    rw [h1, h2]
    unfold dictAssign
    rw [if_pos (by rw [any_key_map_assign]; exact hAny)]
    rw [List.map_map]
    apply List.map_congr_left
    intro kv _
    by_cases h : kv.1 = p <;> simp [h]
  · have hAny2 : pm.any (fun kv => kv.1 = p) = false := by
      cases hx : pm.any (fun kv => kv.1 = p)
      · rfl
      · exact absurd hx hAny
    have h1 : dictAssign pm p v = pm ++ [(p, v)] := by
      unfold dictAssign; rw [if_neg hAny]
    have h2 : dictAssign pm p w = pm ++ [(p, w)] := by
      unfold dictAssign; rw [if_neg hAny]
    rw [h1, h2]
    unfold dictAssign
    have hAny3 : ((pm ++ [(p, v)]).any (fun kv => kv.1 = p)) = true := by
      simp
    rw [if_pos hAny3, List.map_append, map_assign_id hAny2]
    simp

lemma resAssign_resAssign (d : ResDic) (k : Nat) (p : String) (v w : List String) :
    resAssign (resAssign d k p v) k p w = resAssign d k p w := by
  unfold resAssign
  rw [List.map_map]
  apply List.map_congr_left
  intro km _
  by_cases h : km.1 = k <;> simp [h, dictAssign_dictAssign]

lemma scanRes_fold (base ptc : String) (k : Nat) :
    ∀ (files : List String) (acc : List String) (d : ResDic),
      (files.foldl (fun acc2 mat =>
        if matSearch k mat then
          let mp := acc2.1 ++ [base ++ mat]
          (mp, resAssign acc2.2 k ptc mp)
        else acc2) (acc, d)).2 =
      if files.filter (fun m => matSearch k m) = [] then d
      else resAssign d k ptc
        (acc ++ (files.filter (fun m => matSearch k m)).map (fun m => base ++ m)) := by
  intro files
  induction files with
  | nil => intro acc d; simp
  | cons f fs ih =>
    intro acc d
    rw [List.foldl_cons]
    by_cases hm : matSearch k f = true
    · have hstep : (if matSearch k f = true then
          let mp := ((acc, d) : List String × ResDic).1 ++ [base ++ f]
          (mp, resAssign ((acc, d) : List String × ResDic).2 k ptc mp)
        else ((acc, d) : List String × ResDic)) =
          (acc ++ [base ++ f], resAssign d k ptc (acc ++ [base ++ f])) := by
        simp [hm]
      rw [hstep, ih]
      rw [List.filter_cons_of_pos (by simpa using hm)]
      by_cases hf : fs.filter (fun m => matSearch k m) = []
      · simp [hf]
      · rw [if_neg hf, if_neg (by simp), resAssign_resAssign]
        simp
    · have hstep : (if matSearch k f = true then
          let mp := ((acc, d) : List String × ResDic).1 ++ [base ++ f]
          (mp, resAssign ((acc, d) : List String × ResDic).2 k ptc mp)
        else ((acc, d) : List String × ResDic)) = (acc, d) := by
        simp [hm]
      rw [hstep, ih]
      rw [List.filter_cons_of_neg (by simpa using hm)]

lemma scanRes_eq (base ptc : String) (files : List String) (d : ResDic) (k : Nat) :
    scanRes base ptc files d k =
      if files.filter (fun m => matSearch k m) = [] then d
      else resAssign d k ptc
        ((files.filter (fun m => matSearch k m)).map (fun m => base ++ m)) := by
  unfold scanRes
  rw [scanRes_fold base ptc k files [] d]
  simp

lemma any_pyStrEqList (pt : String) (l : List (List String)) :
    l.any (fun v => pyStrEqList pt v) = false := by
  induction l with
  | nil => rfl
  | cons x t ih => simp [pyStrEqList] at ih ⊢

lemma resetStep_eq (pt ptc : String) (dd : ResDic) (k : Nat) :
    resetStep pt ptc dd k =
      match dd.lookup k with
      | some _ => resAssign dd k ptc []
      | none => dd := by
  unfold resetStep
  cases dd.lookup k with
  | none => rfl
  | some pm => simp [any_pyStrEqList pt (pm.map (fun kv => kv.2))]

lemma foldl_resKeys {α : Type} {step : ResDic → α → ResDic}
    (h : ∀ dd a, resKeys (step dd a) = resKeys dd) :
    ∀ (l : List α) (d : ResDic), resKeys (l.foldl step d) = resKeys d := by
  intro l
  induction l with
  | nil => intro d; rfl
  | cons a t ih => intro d; rw [List.foldl_cons, ih, h]

lemma resKeys_resetStep (pt ptc : String) (dd : ResDic) (k : Nat) :
    resKeys (resetStep pt ptc dd k) = resKeys dd := by
  rw [resetStep_eq]
  cases dd.lookup k with
  | none => rfl
  | some pm => exact resKeys_resAssign dd k ptc []

lemma resKeys_resetProt (d : ResDic) (pt ptc : String) :
    resKeys (resetProt d pt ptc) = resKeys d :=
  foldl_resKeys (resKeys_resetStep pt ptc) RESOLUTIONS d

lemma resKeys_scanRes (base ptc : String) (files : List String)
    (dd : ResDic) (k : Nat) :
    resKeys (scanRes base ptc files dd k) = resKeys dd := by
  rw [scanRes_eq]
  by_cases h : files.filter (fun m => matSearch k m) = [] <;>
    simp [h, resKeys_resAssign]

lemma processPt_eq (wdir : String) (fs : FS) (ind : String)
    (d : ResDic) (pt : String) :
    processPt wdir fs ind d pt =
      match lookupDir fs (wdir ++ ind ++ "." ++ removeNL pt ++ "/" ++ h5_path) with
      | none => resetProt d pt (removeNL pt)
      | some files => RESOLUTIONS.foldl
          (scanRes (wdir ++ ind ++ "." ++ removeNL pt ++ "/" ++ h5_path)
            (removeNL pt) files)
          (resetProt d pt (removeNL pt)) := rfl

lemma scanMatches_eq (wdir : String) (fs : FS) (ind : String)
    (pt : String) (k : Nat) :
    scanMatches wdir fs ind pt k =
      match lookupDir fs (wdir ++ ind ++ "." ++ removeNL pt ++ "/" ++ h5_path) with
      | none => []
      | some files => (files.filter (fun m => matSearch k m)).map
          (fun m => (wdir ++ ind ++ "." ++ removeNL pt ++ "/" ++ h5_path) ++ m) := rfl

lemma resKeys_processPt (wdir : String) (fs : FS) (ind : String)
    (d : ResDic) (pt : String) :
    resKeys (processPt wdir fs ind d pt) = resKeys d := by
  rw [processPt_eq]
  cases hfs : lookupDir fs (wdir ++ ind ++ "." ++ removeNL pt ++ "/" ++ h5_path) with
  | none => exact resKeys_resetProt d pt (removeNL pt)
  | some files =>
    rw [foldl_resKeys (fun dd k =>
      resKeys_scanRes (wdir ++ ind ++ "." ++ removeNL pt ++ "/" ++ h5_path)
        (removeNL pt) files dd k) RESOLUTIONS _]
    exact resKeys_resetProt d pt (removeNL pt)

lemma foldl_resolutions_local (step : ResDic → Nat → ResDic) (q : String)
    (pre : ResDic → Nat → Prop) (target : Nat → Option (List String))
    (hne : ∀ dd k0 k, ¬ k = k0 → lookupRes (step dd k0) k q = lookupRes dd k q)
    (hkeys : ∀ dd k0, resKeys (step dd k0) = resKeys dd)
    (hpre : ∀ dd k0 k, ¬ k = k0 → pre dd k → pre (step dd k0) k)
    (hself : ∀ dd k0, resKeys dd = RESOLUTIONS → k0 ∈ RESOLUTIONS → pre dd k0 →
      lookupRes (step dd k0) k0 q = target k0)
    (d : ResDic) (hd : resKeys d = RESOLUTIONS)
    (hp : ∀ k0, k0 ∈ RESOLUTIONS → pre d k0)
    (k : Nat) (hk : k ∈ RESOLUTIONS) :
    lookupRes (RESOLUTIONS.foldl step d) k q = target k := by
  have hm1 : (1000000 : Nat) ∈ RESOLUTIONS := by simp [RESOLUTIONS]
  have hm2 : (500000 : Nat) ∈ RESOLUTIONS := by simp [RESOLUTIONS]
  have hm3 : (200000 : Nat) ∈ RESOLUTIONS := by simp [RESOLUTIONS]
  have hm4 : (50000 : Nat) ∈ RESOLUTIONS := by simp [RESOLUTIONS]
  have hk4 : k = 1000000 ∨ k = 500000 ∨ k = 200000 ∨ k = 50000 := by
    simpa [RESOLUTIONS] using hk
  have hfold : RESOLUTIONS.foldl step d =
      step (step (step (step d 1000000) 500000) 200000) 50000 := rfl
  rw [hfold]
  rcases hk4 with rfl | rfl | rfl | rfl
  · rw [hne _ _ _ (by decide), hne _ _ _ (by decide), hne _ _ _ (by decide)]
    exact hself d 1000000 hd hm1 (hp _ hm1)
  · rw [hne _ _ _ (by decide), hne _ _ _ (by decide)]
    refine hself _ _ (by rw [hkeys]; exact hd) hm2 ?_
    exact hpre _ _ _ (by decide) (hp _ hm2)
  · rw [hne _ _ _ (by decide)]
    refine hself _ _ (by rw [hkeys, hkeys]; exact hd) hm3 ?_
    exact hpre _ _ _ (by decide) (hpre _ _ _ (by decide) (hp _ hm3))
  · refine hself _ _ (by rw [hkeys, hkeys, hkeys]; exact hd) hm4 ?_
    exact hpre _ _ _ (by decide)
      (hpre _ _ _ (by decide) (hpre _ _ _ (by decide) (hp _ hm4)))

lemma lookupRes_resetStep_ne (pt ptc : String) (dd : ResDic) {k0 k : Nat}
    (h : ¬ k = k0) (q : String) :
    lookupRes (resetStep pt ptc dd k0) k q = lookupRes dd k q := by
  rw [resetStep_eq]
  cases dd.lookup k0 with
  | none => rfl
  | some pm => exact lookupRes_resAssign_ne h dd ptc [] q

lemma lookupRes_resetProt (d : ResDic) (pt ptc : String)
    (hd : resKeys d = RESOLUTIONS) (k : Nat) (hk : k ∈ RESOLUTIONS) :
    lookupRes (resetProt d pt ptc) k ptc = some [] := by
  unfold resetProt
  refine foldl_resolutions_local (resetStep pt ptc) ptc (fun _ _ => True)
    (fun _ => some []) ?_ (resKeys_resetStep pt ptc) (fun _ _ _ _ _ => trivial)
    ?_ d hd (fun _ _ => trivial) k hk
  · intro dd k0 k1 h
    exact lookupRes_resetStep_ne pt ptc dd h ptc
  · intro dd k0 hdd hk0 _
    obtain ⟨pm, hpm⟩ := lookup_isSome_of_mem_resKeys (hdd ▸ hk0)
    rw [resetStep_eq, hpm]
    exact lookupRes_resAssign_self hpm ptc []

lemma lookupRes_scanRes_ne (base ptc : String) (files : List String)
    (dd : ResDic) {k0 k : Nat} (h : ¬ k = k0) (q : String) :
    lookupRes (scanRes base ptc files dd k0) k q = lookupRes dd k q := by
  rw [scanRes_eq]
  by_cases hf : files.filter (fun m => matSearch k0 m) = []
  · rw [if_pos hf]
  · rw [if_neg hf]
    exact lookupRes_resAssign_ne h dd ptc _ q

lemma lookupRes_processPt (wdir : String) (fs : FS) (ind : String)
    (d : ResDic) (pt : String) (hd : resKeys d = RESOLUTIONS)
    (k : Nat) (hk : k ∈ RESOLUTIONS) :
    lookupRes (processPt wdir fs ind d pt) k (removeNL pt) =
      some (scanMatches wdir fs ind pt k) := by
  rw [processPt_eq, scanMatches_eq]
  have hdreset : resKeys (resetProt d pt (removeNL pt)) = RESOLUTIONS := by
    rw [resKeys_resetProt]; exact hd
  cases hfs : lookupDir fs (wdir ++ ind ++ "." ++ removeNL pt ++ "/" ++ h5_path) with
  | none =>
    exact lookupRes_resetProt d pt (removeNL pt) hd k hk
  | some files =>
    refine foldl_resolutions_local
      (scanRes (wdir ++ ind ++ "." ++ removeNL pt ++ "/" ++ h5_path)
        (removeNL pt) files)
      (removeNL pt)
      (fun dd k0 => lookupRes dd k0 (removeNL pt) = some [])
      (fun k0 => some ((files.filter (fun m => matSearch k0 m)).map
        (fun m => (wdir ++ ind ++ "." ++ removeNL pt ++ "/" ++ h5_path) ++ m)))
      ?_ ?_ ?_ ?_ _ hdreset ?_ k hk
    · intro dd k0 k1 h
      exact lookupRes_scanRes_ne _ _ files dd h _
    · intro dd k0
      exact resKeys_scanRes _ _ files dd k0
    · intro dd k0 k1 h hp
      rw [lookupRes_scanRes_ne _ _ files dd h]
      exact hp
    · intro dd k0 hdd hk0 hp
      rw [scanRes_eq]
      by_cases hf : files.filter (fun m => matSearch k0 m) = []
      · rw [if_pos hf, hp]
        simp [hf]
      · rw [if_neg hf]
        obtain ⟨pm, hpm⟩ := lookup_isSome_of_mem_resKeys (hdd ▸ hk0)
        exact lookupRes_resAssign_self hpm _ _
    · intro k0 hk0
      exact lookupRes_resetProt d pt (removeNL pt) hd k0 hk0

/-- C4: for a fixed resolution and protocol, one scan of a results
directory determines the stored path list completely: the final value for
the scanned protocol equals the full list of matching files of that
directory, whatever the mapping held before, so a later scan for the same
protocol replaces rather than extends earlier matches, while two matching
files of the same directory are both kept. -/
theorem processPt_last_scan_wins (wdir : String) (fs : FS) (ind : String)
    (d : ResDic) (pt : String) (k : Nat)
    (hd : resKeys d = RESOLUTIONS) (hk : k ∈ RESOLUTIONS) :
    lookupRes (processPt wdir fs ind d pt) k (removeNL pt) =
      some (scanMatches wdir fs ind pt k) ∧
    ∀ ind2, lookupRes (processPt wdir fs ind2 (processPt wdir fs ind d pt) pt)
        k (removeNL pt) = some (scanMatches wdir fs ind2 pt k) := by
  constructor
  · exact lookupRes_processPt wdir fs ind d pt hd k hk
  · intro ind2
    refine lookupRes_processPt wdir fs ind2 _ pt ?_ k hk
    rw [resKeys_processPt]
    exact hd

/-- Witness for C4: a directory with two matching files, scanned after a
directory with one matching file; the two files of the last scan survive
and the earlier match is gone. -/
theorem processPt_last_scan_wins_witness :
    resKeys initResDic = RESOLUTIONS ∧ (1000000 : Nat) ∈ RESOLUTIONS ∧
    scanMatches "w/"
      [("w/trio.A.001/hic_results/matrix/h5df/", ["a_1000000.matrix.h5"]),
       ("w/trio.B.001/hic_results/matrix/h5df/",
         ["b_1000000.matrix.h5", "c_1000000.matrix.h5"])]
      "trio.B" "001" 1000000 =
      ["w/trio.B.001/hic_results/matrix/h5df/b_1000000.matrix.h5",
       "w/trio.B.001/hic_results/matrix/h5df/c_1000000.matrix.h5"] ∧
    lookupRes
      (processPt "w/"
        [("w/trio.A.001/hic_results/matrix/h5df/", ["a_1000000.matrix.h5"]),
         ("w/trio.B.001/hic_results/matrix/h5df/",
           ["b_1000000.matrix.h5", "c_1000000.matrix.h5"])]
        "trio.B"
        (processPt "w/"
          [("w/trio.A.001/hic_results/matrix/h5df/", ["a_1000000.matrix.h5"]),
           ("w/trio.B.001/hic_results/matrix/h5df/",
             ["b_1000000.matrix.h5", "c_1000000.matrix.h5"])]
          "trio.A" initResDic "001")
        "001")
      1000000 (removeNL "001") =
      some (scanMatches "w/"
        [("w/trio.A.001/hic_results/matrix/h5df/", ["a_1000000.matrix.h5"]),
         ("w/trio.B.001/hic_results/matrix/h5df/",
           ["b_1000000.matrix.h5", "c_1000000.matrix.h5"])]
        "trio.B" "001" 1000000) :=
  ⟨rfl, by decide, by decide,
    (processPt_last_scan_wins "w/"
      [("w/trio.A.001/hic_results/matrix/h5df/", ["a_1000000.matrix.h5"]),
       ("w/trio.B.001/hic_results/matrix/h5df/",
         ["b_1000000.matrix.h5", "c_1000000.matrix.h5"])]
      "trio.A" initResDic "001" 1000000 rfl (by decide)).2 "trio.B"⟩

/-- C6: when the results directory of an individual and protocol pair is
absent, the error is caught: the protocol records an empty path list at
every resolution, the step returns normally, and the mapping keeps its
resolution keys for the remaining protocols. -/
theorem processPt_missing_dir (wdir : String) (fs : FS) (ind : String)
    (d : ResDic) (pt : String)
    (hd : resKeys d = RESOLUTIONS)
    (hmiss : lookupDir fs (wdir ++ ind ++ "." ++ removeNL pt ++ "/" ++ h5_path) = none) :
    (∀ k ∈ RESOLUTIONS,
      lookupRes (processPt wdir fs ind d pt) k (removeNL pt) = some []) ∧
    resKeys (processPt wdir fs ind d pt) = RESOLUTIONS := by
  constructor
  · intro k hk
    rw [lookupRes_processPt wdir fs ind d pt hd k hk, scanMatches_eq, hmiss]
  · rw [resKeys_processPt]
    exact hd

/-- Witness for C6 on an empty filesystem. -/
theorem processPt_missing_dir_witness :
    resKeys initResDic = RESOLUTIONS ∧
    lookupDir ([] : FS)
      ("w/" ++ "trio.A" ++ "." ++ removeNL "001\n" ++ "/" ++ h5_path) = none ∧
    ((∀ k ∈ RESOLUTIONS,
      lookupRes (processPt "w/" ([] : FS) "trio.A" initResDic "001\n")
        k (removeNL "001\n") = some []) ∧
    resKeys (processPt "w/" ([] : FS) "trio.A" initResDic "001\n") = RESOLUTIONS) :=
  ⟨rfl, rfl, processPt_missing_dir "w/" [] "trio.A" initResDic "001\n" rfl rfl⟩

/-- C10: a metadata line that does not start with `trio` is skipped by
the collector and leaves the mapping unchanged; the header line written
by `write_metadata` is such a line. -/
theorem processLine_skips_nontrio (wdir : String) (fs : FS) (d : ResDic)
    (line : String) (h : pyStartsWith line "trio" = false) :
    processLine wdir fs d line = some d ∧
    pyStartsWith "indiv \t protocols \n" "trio" = false := by
  refine ⟨?_, rfl⟩
  unfold processLine
  rw [h]
  simp

/-- Witness for C10 at the header line. -/
theorem processLine_skips_nontrio_witness :
    pyStartsWith "indiv \t protocols \n" "trio" = false ∧
    processLine "w/" ([] : FS) initResDic "indiv \t protocols \n" = some initResDic :=
  ⟨rfl, (processLine_skips_nontrio "w/" [] initResDic "indiv \t protocols \n" rfl).1⟩

lemma mem_keys_dictAssign {q : String} {pm : ProtMap} {p : String} {v : List String}
    (h : q ∈ (dictAssign pm p v).map (fun kv => kv.1)) :
    q = p ∨ q ∈ pm.map (fun kv => kv.1) := by
  unfold dictAssign at h
  by_cases hAny : pm.any (fun kv => kv.1 = p) = true
  · rw [if_pos hAny, List.map_map] at h
    right
    have : ((fun kv : String × List String => kv.1) ∘
        (fun kv => if kv.1 = p then (kv.1, v) else kv)) = (fun kv => kv.1) := by
      funext kv
      by_cases hk : kv.1 = p <;> simp [hk]
    rw [this] at h
    exact h
  · rw [if_neg hAny, List.map_append] at h
    rcases List.mem_append.mp h with h2 | h2
    · right; exact h2
    · left; simpa using h2

lemma mem_protKeys_resAssign {q : String} {d : ResDic} {k : Nat}
    {p : String} {v : List String}
    (h : q ∈ protKeys (resAssign d k p v)) :
    q = p ∨ q ∈ protKeys d := by
  induction d with
  | nil => simp [protKeys, resAssign] at h
  | cons km rest ih =>
    obtain ⟨a, pm⟩ := km
    unfold resAssign protKeys at h ih
    unfold protKeys
    rw [List.map_cons, List.map_cons, List.flatten_cons] at h
    rw [List.map_cons, List.flatten_cons]
    rcases List.mem_append.mp h with h2 | h2
    · by_cases ha : a = k
      · have : ((if ((a, pm) : Nat × ProtMap).1 = k
            then (((a, pm) : Nat × ProtMap).1, dictAssign ((a, pm) : Nat × ProtMap).2 p v)
            else (a, pm)).2.map (fun pv => pv.1)) =
            (dictAssign pm p v).map (fun pv => pv.1) := by simp [ha]
        rw [this] at h2
        rcases mem_keys_dictAssign h2 with h3 | h3
        · exact Or.inl h3
        · exact Or.inr (List.mem_append_left _ h3)
      · have : ((if ((a, pm) : Nat × ProtMap).1 = k
            then (((a, pm) : Nat × ProtMap).1, dictAssign ((a, pm) : Nat × ProtMap).2 p v)
            else (a, pm)).2.map (fun pv => pv.1)) = pm.map (fun pv => pv.1) := by
          simp [ha]
        rw [this] at h2
        exact Or.inr (List.mem_append_left _ h2)
    · rcases ih h2 with h3 | h3
      · exact Or.inl h3
      · exact Or.inr (List.mem_append_right _ h3)

lemma mem_protKeys_resetStep {q : String} (pt ptc : String) (dd : ResDic) (k : Nat)
    (h : q ∈ protKeys (resetStep pt ptc dd k)) :
    q = ptc ∨ q ∈ protKeys dd := by
  rw [resetStep_eq] at h
  cases hdd : dd.lookup k with
  | none => rw [hdd] at h; exact Or.inr h
  | some pm =>
    rw [hdd] at h
    exact mem_protKeys_resAssign h

lemma mem_protKeys_scanRes {q : String} (base ptc : String) (files : List String)
    (dd : ResDic) (k : Nat)
    (h : q ∈ protKeys (scanRes base ptc files dd k)) :
    q = ptc ∨ q ∈ protKeys dd := by
  rw [scanRes_eq] at h
  by_cases hf : files.filter (fun m => matSearch k m) = []
  · rw [if_pos hf] at h; exact Or.inr h
  · rw [if_neg hf] at h
    exact mem_protKeys_resAssign h

lemma foldl_protKeys {α : Type} {q : String} {step : ResDic → α → ResDic}
    (f : α → String)
    (h : ∀ dd a, q ∈ protKeys (step dd a) → q = f a ∨ q ∈ protKeys dd) :
    ∀ (l : List α) (d : ResDic), q ∈ protKeys (l.foldl step d) →
      (∃ a ∈ l, q = f a) ∨ q ∈ protKeys d := by
  intro l
  induction l with
  | nil => intro d hq; exact Or.inr hq
  | cons a t ih =>
    intro d hq
    rw [List.foldl_cons] at hq
    rcases ih (step d a) hq with h2 | h2
    · obtain ⟨b, hb, hqb⟩ := h2
      exact Or.inl ⟨b, List.mem_cons_of_mem a hb, hqb⟩
    · rcases h d a h2 with h3 | h3
      · exact Or.inl ⟨a, List.mem_cons_self a t, h3⟩
      · exact Or.inr h3

lemma mem_protKeys_processPt {q wdir : String} {fs : FS} {ind : String}
    {d : ResDic} {pt : String}
    (h : q ∈ protKeys (processPt wdir fs ind d pt)) :
    q = removeNL pt ∨ q ∈ protKeys d := by
  rw [processPt_eq] at h
  cases hfs : lookupDir fs (wdir ++ ind ++ "." ++ removeNL pt ++ "/" ++ h5_path) with
  | none =>
    rw [hfs] at h
    unfold resetProt at h
    rcases foldl_protKeys (fun _ : Nat => removeNL pt)
      (fun dd a hq => mem_protKeys_resetStep pt (removeNL pt) dd a hq)
      RESOLUTIONS d h with h2 | h2
    · obtain ⟨_, _, hq⟩ := h2; exact Or.inl hq
    · exact Or.inr h2
  | some files =>
    rw [hfs] at h
    rcases foldl_protKeys (fun _ : Nat => removeNL pt)
      (fun dd a hq => mem_protKeys_scanRes _ (removeNL pt) files dd a hq)
      RESOLUTIONS _ h with h2 | h2
    · obtain ⟨_, _, hq⟩ := h2; exact Or.inl hq
    · unfold resetProt at h2
      rcases foldl_protKeys (fun _ : Nat => removeNL pt)
        (fun dd a hq => mem_protKeys_resetStep pt (removeNL pt) dd a hq)
        RESOLUTIONS d h2 with h3 | h3
      · obtain ⟨_, _, hq⟩ := h3; exact Or.inl hq
      · exact Or.inr h3

lemma resKeys_processLine {wdir : String} {fs : FS} {d : ResDic}
    {line : String} {d2 : ResDic}
    (h : processLine wdir fs d line = some d2) : resKeys d2 = resKeys d := by
  unfold processLine at h
  by_cases hst : pyStartsWith line "trio" = true
  · rw [if_pos hst] at h
    cases hsp : pySplit line '\t' with
    | nil => rw [hsp] at h; simp at h
    | cons ind rest1 =>
      cases rest1 with
      | nil => rw [hsp] at h; simp at h
      | cons protsStr rest =>
        rw [hsp] at h
        have hd2 : (pySplit protsStr ',').foldl (processPt wdir fs ind) d = d2 := by
          simpa using h
        rw [← hd2]
        exact foldl_resKeys (fun dd a => resKeys_processPt wdir fs ind dd a) _ d
  · rw [if_neg hst] at h
    have : d = d2 := by simpa using h
    rw [this]

lemma mem_protKeys_processLine {q wdir : String} {fs : FS} {d : ResDic}
    {line : String} {d2 : ResDic}
    (h : processLine wdir fs d line = some d2) (hq : q ∈ protKeys d2) :
    q ∈ lineProts line ∨ q ∈ protKeys d := by
  unfold processLine at h
  unfold lineProts
  by_cases hst : pyStartsWith line "trio" = true
  · rw [if_pos hst] at h
    rw [if_pos hst]
    cases hsp : pySplit line '\t' with
    | nil => rw [hsp] at h; simp at h
    | cons ind rest1 =>
      cases rest1 with
      | nil => rw [hsp] at h; simp at h
      | cons protsStr rest =>
        rw [hsp] at h
        have hd2 : (pySplit protsStr ',').foldl (processPt wdir fs ind) d = d2 := by
          simpa using h
        rw [← hd2] at hq
        rcases foldl_protKeys removeNL
          (fun dd a hx => mem_protKeys_processPt hx) _ d hq with h2 | h2
        · obtain ⟨a, ha, hqa⟩ := h2
          exact Or.inl (List.mem_map.mpr ⟨a, ha, hqa.symm⟩)
        · exact Or.inr h2
  · rw [if_neg hst] at h
    have : d = d2 := by simpa using h
    rw [this]
    exact Or.inr hq

lemma create_aux_keys : ∀ (lines : List String) (wdir : String) (fs : FS)
    (d0 d : ResDic), lines.foldlM (processLine wdir fs) d0 = some d →
    resKeys d = resKeys d0 := by
  intro lines
  induction lines with
  | nil =>
    intro wdir fs d0 d h
    have : d0 = d := by simpa using h
    rw [← this]
  | cons line rest ih =>
    intro wdir fs d0 d h
    rw [List.foldlM_cons] at h
    cases hp : processLine wdir fs d0 line with
    | none => rw [hp] at h; simp at h
    | some d1 =>
      rw [hp] at h
      simp at h
      rw [ih wdir fs d1 d h, resKeys_processLine hp]

lemma create_aux_prots : ∀ (lines : List String) (wdir : String) (fs : FS)
    (d0 d : ResDic), lines.foldlM (processLine wdir fs) d0 = some d →
    ∀ q ∈ protKeys d, q ∈ allLineProts lines ∨ q ∈ protKeys d0 := by
  intro lines
  induction lines with
  | nil =>
    intro wdir fs d0 d h q hq
    have : d0 = d := by simpa using h
    rw [this]
    exact Or.inr hq
  | cons line rest ih =>
    intro wdir fs d0 d h q hq
    rw [List.foldlM_cons] at h
    cases hp : processLine wdir fs d0 line with
    | none => rw [hp] at h; simp at h
    | some d1 =>
      rw [hp] at h
      simp at h
      have hall : allLineProts (line :: rest) =
          lineProts line ++ allLineProts rest := by
        simp [allLineProts]
      rcases ih wdir fs d1 d h q hq with h2 | h2
      · rw [hall]
        exact Or.inl (List.mem_append_right _ h2)
      · rcases mem_protKeys_processLine hp h2 with h3 | h3
        · rw [hall]
          exact Or.inl (List.mem_append_left _ h3)
        · exact Or.inr h3

lemma protKeys_initResDic : protKeys initResDic = [] := rfl

/-- C3 (amended): the mapping built by the collector always holds exactly
the four fixed resolution keys; a protocol key exists inside a
resolution only if the protocol token, stripped of its newline, appears
in some processed metadata line, whether or not any matching file was
found. -/
theorem create_matrice_directory_keys (wdir : String) (fs : FS)
    (lines : List String) (d : ResDic)
    (h : create_matrice_directory wdir fs lines = some d) :
    resKeys d = RESOLUTIONS ∧ ∀ p ∈ protKeys d, p ∈ allLineProts lines := by
  constructor
  · rw [create_aux_keys lines wdir fs initResDic d h]
    rfl
  · intro p hp
    rcases create_aux_prots lines wdir fs initResDic d h p hp with h2 | h2
    · exact h2
    · rw [protKeys_initResDic] at h2
      exact absurd h2 (List.not_mem_nil p)

/-- Counterexample to C3 as stated: on a filesystem with no files at all,
the collector still creates the protocol key, with an empty path list, so
a protocol key can exist although no matching file was ever found. -/
theorem protocol_key_without_files :
    (create_matrice_directory "w/" [] ["trio.A\t001\n"]).map
      (fun d => lookupRes d 1000000 "001") = some (some []) := rfl

/-- The collector output on the two-line example metadata file. -/
def exDic : ResDic :=
  [(1000000, [("001", [])]), (500000, [("001", [])]),
   (200000, [("001", [])]), (50000, [("001", [])])]

/-- Witness for C3 on a concrete metadata file. -/
theorem create_matrice_directory_keys_witness :
    create_matrice_directory "w/" [] ["indiv \t protocols \n", "trio.A\t001\n"] =
      some exDic ∧
    (resKeys exDic = RESOLUTIONS ∧
      ∀ p ∈ protKeys exDic,
        p ∈ allLineProts ["indiv \t protocols \n", "trio.A\t001\n"]) :=
  ⟨rfl, create_matrice_directory_keys "w/" []
    ["indiv \t protocols \n", "trio.A\t001\n"] exDic rfl⟩

/-- C2 (amended): the aggregation loop builds one external command for
every resolution and protocol key pair present in the mapping, with the
collected paths joined by spaces and the output file named by protocol
and resolution, and no other commands; in particular pairs whose
collected list is empty are invoked too, with an empty matrices
argument. -/
theorem sumCommands_mem (hic_dir : String) (d : ResDic) (c : String) :
    c ∈ sumCommands hic_dir d ↔
      ∃ km ∈ d, ∃ pv ∈ km.2, c = mkSumCmd hic_dir pv.1 km.1 pv.2 := by
  induction d with
  | nil => simp [sumCommands]
  | cons km rest ih =>
    have hcons : sumCommands hic_dir (km :: rest) =
        km.2.map (fun pv => mkSumCmd hic_dir pv.1 km.1 pv.2) ++
          sumCommands hic_dir rest := by
      simp [sumCommands]
    rw [hcons]
    constructor
    · intro hmem
      rcases List.mem_append.mp hmem with h2 | h2
      · obtain ⟨pv, hpv, hc⟩ := List.mem_map.mp h2
        exact ⟨km, List.mem_cons_self km rest, pv, hpv, hc.symm⟩
      · obtain ⟨km2, hkm2, pv, hpv, hc⟩ := ih.mp h2
        exact ⟨km2, List.mem_cons_of_mem km hkm2, pv, hpv, hc⟩
    · rintro ⟨km2, hkm2, pv, hpv, hc⟩
      rcases List.mem_cons.mp hkm2 with rfl | hkm3
      · exact List.mem_append_left _ (List.mem_map.mpr ⟨pv, hpv, hc.symm⟩)
      · exact List.mem_append_right _ (ih.mpr ⟨km2, hkm3, pv, hpv, hc⟩)

/-- Counterexample to C2 as stated: a resolution and protocol pair whose
collected path list is empty still produces an external invocation, with
an empty matrices argument. -/
theorem sum_invoked_on_empty_pair :
    create_matrice_directory "w/" [] ["trio.A\t001\n"] = some exDic ∧
    sumCommands "h/" exDic =
      ["hicSumMatrices --matrices  --outFileName h/001_1000000.h5",
       "hicSumMatrices --matrices  --outFileName h/001_500000.h5",
       "hicSumMatrices --matrices  --outFileName h/001_200000.h5",
       "hicSumMatrices --matrices  --outFileName h/001_50000.h5"] ∧
    lookupRes exDic 1000000 "001" = some [] :=
  ⟨rfl, by decide, rfl⟩
